import Mathlib

/-!
# Rule management handlers of `api/rule.go`

A shallow embedding of the five HTTP handlers of `RuleHandler`
(`listRules`, `getRules`, `appendRules`, `deleteRules`, `changeRules`) together
with `populateModelFromHandler` and `CheckNewRules`.

The two collaborators reached through the registry are external to the file:

* the rule repository is a record of five operations over an abstract store
  `σ`; every operation returns its Go results together with the next store;
* the response writer is not executed: each of its three methods is recorded
  as an event in the log of the request, next to the repository calls.

Go values are kept in their Go shape: an `error` is `Option Error` (`none` is
`nil`), a slice is `Option (List α)` (`none` is the nil slice), a `*Rule` is
`Option Rule`.
-/

namespace Api

/-! ## Data model -/

/-- Go slice of `α`; `none` is the nil slice, `some []` an allocated empty one. -/
abbrev Slice (α : Type) := Option (List α)

/-- Elements of a slice, as `range` visits them (`len(nil) = 0`). -/
def Slice.toList {α : Type} : Slice α → List α
  | none => []
  | some l => l

/-- Record `rule.Rule`: the handlers read `ID` and `Version` only; `Description`
stands for the remaining attributes, which the handlers pass through. -/
structure Rule where
  ID : String
  Version : String
  Description : String
deriving DecidableEq, Repr

/-- Errors seen by the handlers: the two sentinels of package `helper`, an error
made by `errors.New` (or any other root error), and `errors.WithStack`. -/
inductive Error where
  | ErrResourceNotFound
  | ErrResourceConflict
  | New (msg : String)
  | WithStack (err : Error)
deriving DecidableEq, Repr

/-- Function `errors.Cause`: strips the wrappers down to the root error. -/
def Cause : Error → Error
  | .WithStack err => Cause err
  | err => err

/-- Go test `errors.Cause(err) == target` on an `error` value that may be nil
(`errors.Cause(nil)` is nil and equals no sentinel). -/
def causeIs (err : Option Error) (target : Error) : Bool :=
  match err with
  | none => false
  | some e => decide (Cause e = target)

/-- Constant `http.StatusNotFound`. -/
def StatusNotFound : Nat := 404

/-- Constant `http.StatusInternalServerError`. -/
def StatusInternalServerError : Nat := 500

/-- Request body (`io.ReadCloser`): the bytes it delivers, the error `Read`
returns once they are exhausted (`none` is `io.EOF`), and the error of `Close`. -/
structure ReadCloser where
  data : List Nat
  readErr : Option Error
  closeErr : Option Error
deriving DecidableEq, Repr

/-- Request `*http.Request`, reduced to what the handlers touch. -/
structure Request where
  Body : ReadCloser
  RawQuery : String
deriving DecidableEq, Repr

/-- Path parameters `httprouter.Params`. -/
abbrev Params := List (String × String)

/-- Method `Params.ByName`: value of the first parameter with that key, else `""`. -/
def Params.ByName (ps : Params) (name : String) : String :=
  match ps.find? (fun p => p.1 == name) with
  | some p => p.2
  | none => ""

/-- Value handed to `Writer().Write`. -/
inductive Payload where
  | rules (rs : Slice Rule)
  | rule (rl : Option Rule)
  | text (s : String)
deriving DecidableEq, Repr

/-- Observable actions of a handler, in program order: repository calls with
their arguments, writer calls with their arguments, and `fmt.Println`. -/
inductive Event where
  | RepoList (limit offset : Int)
  | RepoGet (id : String)
  | RepoAppend (rules : Slice Rule)
  | RepoDelete (id : String)
  | RepoChange (id : String) (rl : Rule)
  | Write (p : Payload)
  | WriteError (err : Option Error)
  | WriteErrorCode (code : Nat) (err : Option Error)
  | Println (s : String)
deriving DecidableEq, Repr

/-- Interface `rule.Repository` over a store `σ`. -/
structure RuleRepository (σ : Type) where
  Get : σ → String → (Option Rule × Option Error) × σ
  Append : σ → Slice Rule → Option Error × σ
  Delete : σ → String → Option Error × σ
  Change : σ → String → Rule → Option Error × σ
  List : σ → Int → Int → (Slice Rule × Option Error) × σ

/-- Library functions used by the handlers and defined outside the file:
`pagination.Parse` and `json.Unmarshal` at the two target types. -/
structure Lib where
  paginationParse : Request → Int → Int → Int → Int × Int
  unmarshalRules : List Nat → Except Error (Slice Rule)
  unmarshalRule : List Nat → Except Error Rule

/-- What handling one request did: the store left behind, the log of events, and
the runtime panic that ended the handler, if any. -/
structure Outcome (σ : Type) where
  store : σ
  log : List Event
  panic : Option String

/-! ## Handlers -/

/-- Expression `ioutil.ReadAll(io.LimitReader(rc, n))`: at most `n` bytes are
read; the reader's own error is met only when it has fewer than `n` bytes. -/
def readAllLimit (rc : ReadCloser) (n : Nat) : Except Error (List Nat) :=
  if n ≤ rc.data.length then .ok (rc.data.take n)
  else
    match rc.readErr with
    | some err => .error err
    | none => .ok rc.data

/-- Function `populateModelFromHandler`, with `json.Unmarshal` at the type of
`model` passed as `unmarshal`. -/
def populateModelFromHandler {α : Type} (unmarshal : List Nat → Except Error α)
    (r : Request) : Except Error α :=
  match readAllLimit r.Body 1048576 with
  | .error err => .error err
  | .ok body =>
    match r.Body.closeErr with
    | some err => .error err
    | none =>
      match unmarshal body with
      | .error err => .error err
      | .ok model => .ok model

/-- Handler `listRules`. -/
def listRules {σ : Type} (lib : Lib) (repo : RuleRepository σ) (s : σ) (r : Request) :
    Outcome σ :=
  let (limit, offset) := lib.paginationParse r 50 0 500
  let ((rules, err), s1) := repo.List s limit offset
  if err ≠ none then
    ⟨s1, [.RepoList limit offset, .WriteError err], none⟩
  else
    let rules := if rules = none then some [] else rules
    ⟨s1, [.RepoList limit offset, .Write (.rules rules)], none⟩

/-- Handler `getRules`. -/
def getRules {σ : Type} (repo : RuleRepository σ) (s : σ) (ps : Params) : Outcome σ :=
  let id := ps.ByName "id"
  let ((rl, err), s1) := repo.Get s id
  if causeIs err .ErrResourceNotFound then
    ⟨s1, [.RepoGet id, .WriteErrorCode StatusNotFound err], none⟩
  else if err ≠ none then
    ⟨s1, [.RepoGet id, .WriteError err], none⟩
  else
    ⟨s1, [.RepoGet id, .Write (.rule rl)], none⟩

/-- Method `CheckNewRules`: one `Get`; true exactly when its error has cause
`ErrResourceNotFound`. -/
def CheckNewRules {σ : Type} (repo : RuleRepository σ) (s : σ) (new_id : String) :
    Bool × σ :=
  let ((_, err), s1) := repo.Get s new_id
  if causeIs err .ErrResourceNotFound then (true, s1) else (false, s1)

/-- Loop `for _, tmp_rule := range rules_to_append` of `appendRules`: the store
after the checks made, the `Get` calls made, and whether every check passed
(`false` is the early `return` after the conflict error). -/
def checkLoop {σ : Type} (repo : RuleRepository σ) : σ → List Rule → σ × List Event × Bool
  | s, [] => (s, [], true)
  | s, tmp_rule :: rest =>
    let (check_result, s1) := CheckNewRules repo s tmp_rule.ID
    if !check_result then (s1, [.RepoGet tmp_rule.ID], false)
    else
      let (s2, gets, ok) := checkLoop repo s1 rest
      (s2, .RepoGet tmp_rule.ID :: gets, ok)

/-- Handler `appendRules`. The index expression `rules_to_append[0]` panics on a
slice of length zero, before any repository or writer call. -/
def appendRules {σ : Type} (lib : Lib) (repo : RuleRepository σ) (s : σ) (r : Request) :
    Outcome σ :=
  match populateModelFromHandler lib.unmarshalRules r with
  | .error err => ⟨s, [.WriteError (some err)], none⟩
  | .ok rules_to_append =>
    match rules_to_append.toList[0]? with
    | none => ⟨s, [], some "runtime error: index out of range [0] with length 0"⟩
    | some first =>
      let (s1, gets, ok) := checkLoop repo s rules_to_append.toList
      let log := .Println ("version:" ++ first.Version) :: gets
      if !ok then
        ⟨s1, log ++ [.WriteError (some (.WithStack .ErrResourceConflict))], none⟩
      else
        let (err, s2) := repo.Append s1 rules_to_append
        if err ≠ none then
          ⟨s2, log ++ [.RepoAppend rules_to_append, .WriteError err], none⟩
        else
          ⟨s2, log ++ [.RepoAppend rules_to_append, .Write (.text "append rules ok")], none⟩

/-- Handler `deleteRules`. -/
def deleteRules {σ : Type} (repo : RuleRepository σ) (s : σ) (ps : Params) : Outcome σ :=
  let id_deleted := ps.ByName "id"
  let ((_, err), s1) := repo.Get s id_deleted
  if causeIs err .ErrResourceNotFound then
    ⟨s1, [.RepoGet id_deleted, .WriteErrorCode StatusNotFound err], none⟩
  else
    let (err, s2) := repo.Delete s1 id_deleted
    if err ≠ none then
      ⟨s2, [.RepoGet id_deleted, .RepoDelete id_deleted,
            .WriteErrorCode StatusInternalServerError err], none⟩
    else
      ⟨s2, [.RepoGet id_deleted, .RepoDelete id_deleted, .Write (.text "delete ok")], none⟩

/-- Handler `changeRules`. -/
def changeRules {σ : Type} (lib : Lib) (repo : RuleRepository σ) (s : σ) (r : Request)
    (ps : Params) : Outcome σ :=
  let id_changed := ps.ByName "id"
  let ((_, err), s1) := repo.Get s id_changed
  if causeIs err .ErrResourceNotFound then
    ⟨s1, [.RepoGet id_changed, .WriteErrorCode StatusNotFound err], none⟩
  else
    match populateModelFromHandler lib.unmarshalRule r with
    | .error err => ⟨s1, [.RepoGet id_changed, .WriteError (some err)], none⟩
    | .ok rules_after_change =>
      if id_changed ≠ rules_after_change.ID then
        ⟨s1, [.RepoGet id_changed,
              .WriteError (some (.New "ID of changed rule must be same as new one"))], none⟩
      else
        let (err, s2) := repo.Change s1 id_changed rules_after_change
        if err ≠ none then
          ⟨s2, [.RepoGet id_changed, .RepoChange id_changed rules_after_change,
                .WriteErrorCode StatusInternalServerError err], none⟩
        else
          ⟨s2, [.RepoGet id_changed, .RepoChange id_changed rules_after_change,
                .Write (.text "change ok")], none⟩

/-! ## Observations on a log -/

/-- Arguments of the `Repository.Append` calls of a log, in order. -/
def appendCalls (log : List Event) : List (Slice Rule) :=
  log.filterMap fun e =>
    match e with
    | .RepoAppend rules => some rules
    | _ => none

/-- Arguments of the `Repository.Delete` calls of a log, in order. -/
def deleteCalls (log : List Event) : List String :=
  log.filterMap fun e =>
    match e with
    | .RepoDelete id => some id
    | _ => none

/-- Arguments of the `Repository.Change` calls of a log, in order. -/
def changeCalls (log : List Event) : List (String × Rule) :=
  log.filterMap fun e =>
    match e with
    | .RepoChange id rl => some (id, rl)
    | _ => none

/-- Whether an event is a call of one of the five repository operations. -/
def Event.isRepoCall : Event → Bool
  | .RepoList _ _ => true
  | .RepoGet _ => true
  | .RepoAppend _ => true
  | .RepoDelete _ => true
  | .RepoChange _ _ => true
  | _ => false

/-- Whether an event is a call of one of the three writer methods. -/
def Event.isResponse : Event → Bool
  | .Write _ => true
  | .WriteError _ => true
  | .WriteErrorCode _ _ => true
  | _ => false

/-- Repository calls of a log, in order. -/
def repoCalls (log : List Event) : List Event := log.filter Event.isRepoCall

/-- Writer calls of a log, in order. -/
def responses (log : List Event) : List Event := log.filter Event.isResponse

/-- Results the repository gives to `Get` when asked for each id in turn,
starting from store `s` (each call continues from the store the previous left). -/
def getAnswers {σ : Type} (repo : RuleRepository σ) : σ → List String →
    List (Option Rule × Option Error)
  | _, [] => []
  | s, id :: ids => (repo.Get s id).1 :: getAnswers repo (repo.Get s id).2 ids

/-- Store left by asking `Get` for each id in turn, starting from store `s`. -/
def storeAfterGets {σ : Type} (repo : RuleRepository σ) : σ → List String → σ
  | s, [] => s
  | s, id :: ids => storeAfterGets repo (repo.Get s id).2 ids

/-- The `Get` event of the pre-check of one candidate rule. -/
def getEvent (rl : Rule) : Event := .RepoGet rl.ID

/-! ## Example collaborators

Concrete collaborators on which the statements below are evaluated. -/

/-- In-memory repository: the store is the list of rules held; an empty page is
returned as the nil slice. -/
def memoryRepository : RuleRepository (List Rule) where
  Get s id :=
    match s.find? (fun rl => rl.ID == id) with
    | some rl => ((some rl, none), s)
    | none => ((none, some (.WithStack .ErrResourceNotFound)), s)
  Append s rules := (none, s ++ rules.toList)
  Delete s id := (none, s.filter (fun rl => rl.ID != id))
  Change s id rl := (none, s.map (fun old => if old.ID == id then rl else old))
  List s limit offset :=
    match (s.drop offset.toNat).take limit.toNat with
    | [] => ((none, none), s)
    | page => ((some page, none), s)

/-- Repository whose reads fail: `Get` and `List` return an error whose cause is
not `ErrResourceNotFound`; `Append`, `Delete` and `Change` succeed. -/
def brokenGetRepository : RuleRepository Unit where
  Get _ _ := ((none, some (.New "connection refused")), ())
  Append _ _ := (none, ())
  Delete _ _ := (none, ())
  Change _ _ _ := (none, ())
  List _ _ _ := ((none, some (.New "connection refused")), ())

/-- Rule written as one byte in the example encoding. -/
def exampleRule (b : Nat) : Rule :=
  if b = 1 then ⟨"r1", "v1", ""⟩
  else if b = 2 then ⟨"r2", "v1", ""⟩
  else ⟨"r3", "v1", ""⟩

/-- Example library: a one-byte-per-rule encoding in place of JSON (`[0]` is the
empty array, the empty body does not decode) and the default pagination. -/
def exampleLib : Lib where
  paginationParse _ defaultLimit defaultOffset _ := (defaultLimit, defaultOffset)
  unmarshalRules data :=
    match data with
    | [] => .error (.New "unexpected end of JSON input")
    | [0] => .ok (some [])
    | bs => .ok (some (bs.map exampleRule))
  unmarshalRule data :=
    match data with
    | [b] => .ok (exampleRule b)
    | _ => .error (.New "unexpected end of JSON input")

/-- Request whose body holds the given bytes and reads and closes cleanly. -/
def requestOf (data : List Nat) : Request := ⟨⟨data, none, none⟩, ""⟩

/-! ## Lemmas on the pre-check loop -/

theorem checkLoop_cons {σ : Type} (repo : RuleRepository σ) (s : σ) (rl : Rule)
    (rest : List Rule) :
    checkLoop repo s (rl :: rest) =
      if causeIs (repo.Get s rl.ID).1.2 .ErrResourceNotFound = true then
        ((checkLoop repo (repo.Get s rl.ID).2 rest).1,
          getEvent rl :: (checkLoop repo (repo.Get s rl.ID).2 rest).2.1,
          (checkLoop repo (repo.Get s rl.ID).2 rest).2.2)
      else ((repo.Get s rl.ID).2, [getEvent rl], false) := by
  simp only [checkLoop, CheckNewRules, getEvent]
  split <;> simp

theorem checkLoop_passed_iff {σ : Type} (repo : RuleRepository σ) (s : σ)
    (rules : List Rule) :
    (checkLoop repo s rules).2.2 = true ↔
      ∀ a ∈ getAnswers repo s (rules.map Rule.ID),
        causeIs a.2 .ErrResourceNotFound = true := by
  induction rules generalizing s with
  | nil => simp [checkLoop, getAnswers]
  | cons rl rest ih =>
    rw [checkLoop_cons]
    by_cases h : causeIs (repo.Get s rl.ID).1.2 .ErrResourceNotFound = true
    · simp [h, getAnswers, ih]
    · simp [h, getAnswers]

theorem checkLoop_of_passed {σ : Type} (repo : RuleRepository σ) (s : σ)
    (rules : List Rule) (h : (checkLoop repo s rules).2.2 = true) :
    (checkLoop repo s rules).1 = storeAfterGets repo s (rules.map Rule.ID) ∧
      (checkLoop repo s rules).2.1 = rules.map getEvent := by
  induction rules generalizing s with
  | nil => simp [checkLoop, storeAfterGets]
  | cons rl rest ih =>
    rw [checkLoop_cons] at h ⊢
    by_cases hc : causeIs (repo.Get s rl.ID).1.2 .ErrResourceNotFound = true
    · simp only [hc, if_true] at h ⊢
      simp [storeAfterGets, ih _ h]
    · simp [hc] at h

theorem checkLoop_gets_only {σ : Type} (repo : RuleRepository σ) (s : σ)
    (rules : List Rule) :
    ∃ asked : List Rule, (checkLoop repo s rules).2.1 = asked.map getEvent := by
  induction rules generalizing s with
  | nil => exact ⟨[], by simp [checkLoop]⟩
  | cons rl rest ih =>
    rw [checkLoop_cons]
    by_cases hc : causeIs (repo.Get s rl.ID).1.2 .ErrResourceNotFound = true
    · obtain ⟨asked, hasked⟩ := ih (repo.Get s rl.ID).2
      exact ⟨rl :: asked, by simp [hc, hasked]⟩
    · exact ⟨[rl], by simp [hc]⟩

theorem responses_map_getEvent (rules : List Rule) :
    responses (rules.map getEvent) = [] := by
  induction rules with
  | nil => rfl
  | cons rl rest ih => simp [responses, getEvent, Event.isResponse]

theorem appendCalls_map_getEvent (rules : List Rule) :
    appendCalls (rules.map getEvent) = [] := by
  induction rules with
  | nil => rfl
  | cons rl rest ih => simp [appendCalls, getEvent]

theorem repoCalls_map_getEvent (rules : List Rule) :
    repoCalls (rules.map getEvent) = rules.map getEvent := by
  induction rules with
  | nil => rfl
  | cons rl rest ih => simp [repoCalls, getEvent, Event.isRepoCall]

/-- Unfolding of `appendRules` on a body that decodes to a slice with a first
element. -/
theorem appendRules_decoded {σ : Type} (lib : Lib) (repo : RuleRepository σ) (s : σ)
    (r : Request) (batch : Slice Rule) (first : Rule) (rest : List Rule)
    (hdec : populateModelFromHandler lib.unmarshalRules r = .ok batch)
    (hb : batch.toList = first :: rest) :
    appendRules lib repo s r =
      if (checkLoop repo s batch.toList).2.2 = true then
        ⟨(repo.Append (checkLoop repo s batch.toList).1 batch).2,
          Event.Println ("version:" ++ first.Version) :: (checkLoop repo s batch.toList).2.1 ++
            [Event.RepoAppend batch,
              if (repo.Append (checkLoop repo s batch.toList).1 batch).1 ≠ none then
                Event.WriteError (repo.Append (checkLoop repo s batch.toList).1 batch).1
              else Event.Write (Payload.text "append rules ok")],
          none⟩
      else
        ⟨(checkLoop repo s batch.toList).1,
          Event.Println ("version:" ++ first.Version) :: (checkLoop repo s batch.toList).2.1 ++
            [Event.WriteError (some (Error.WithStack Error.ErrResourceConflict))],
          none⟩ := by
  simp only [appendRules, hdec, hb, List.getElem?_cons_zero]
  by_cases hc : (checkLoop repo s (first :: rest)).2.2 = true
  · simp only [hc, if_true]
    by_cases ha : (repo.Append (checkLoop repo s (first :: rest)).1 batch).1 = none
    · simp [ha]
    · simp [ha]
  · simp [hc]

/-- Unfolding of `appendRules` when every pre-check passes. -/
theorem appendRules_all_new {σ : Type} (lib : Lib) (repo : RuleRepository σ) (s : σ)
    (r : Request) (batch : Slice Rule)
    (hdec : populateModelFromHandler lib.unmarshalRules r = .ok batch)
    (hne : batch.toList ≠ [])
    (hnf : ∀ a ∈ getAnswers repo s (batch.toList.map Rule.ID),
      causeIs a.2 .ErrResourceNotFound = true) :
    (appendRules lib repo s r).panic = none ∧
      repoCalls (appendRules lib repo s r).log =
        batch.toList.map getEvent ++ [Event.RepoAppend batch] ∧
      appendCalls (appendRules lib repo s r).log = [batch] ∧
      ((repo.Append (storeAfterGets repo s (batch.toList.map Rule.ID)) batch).1 = none →
        responses (appendRules lib repo s r).log =
          [Event.Write (Payload.text "append rules ok")]) ∧
      (∀ err, (repo.Append (storeAfterGets repo s (batch.toList.map Rule.ID)) batch).1
          = some err →
        responses (appendRules lib repo s r).log = [Event.WriteError (some err)]) := by
  obtain ⟨first, rest, hb⟩ := List.exists_cons_of_ne_nil hne
  have hpass := (checkLoop_passed_iff repo s batch.toList).2 hnf
  obtain ⟨hstore, hgets⟩ := checkLoop_of_passed repo s batch.toList hpass
  rw [appendRules_decoded lib repo s r batch first rest hdec hb, if_pos hpass, hstore, hgets]
  refine ⟨rfl, ?_, ?_, ?_, ?_⟩
  · by_cases ha : (repo.Append (storeAfterGets repo s (batch.toList.map Rule.ID)) batch).1
        = none
    · simp [ha, repoCalls, Event.isRepoCall, getEvent]
    · simp [ha, repoCalls, Event.isRepoCall, getEvent]
  · by_cases ha : (repo.Append (storeAfterGets repo s (batch.toList.map Rule.ID)) batch).1
        = none
    · simp [ha, appendCalls, getEvent, List.filterMap_append]
    · simp [ha, appendCalls, getEvent, List.filterMap_append]
  · intro ha
    simp [ha, responses, Event.isResponse, getEvent]
  · intro err ha
    simp [ha, responses, Event.isResponse, getEvent]

/-! ## Claims -/

/-- C1: when the body decodes to a batch and the `Get` pre-check of at least one
of its entries succeeds (the ID exists), whatever its position and whatever the
other entries are, `appendRules` does not panic, its only response is
`WriteError` of the conflict error `ErrResourceConflict`, and `Repository.Append`
is not invoked. -/
theorem appendRules_existing_id_conflict {σ : Type} (lib : Lib) (repo : RuleRepository σ)
    (s : σ) (r : Request) (batch : Slice Rule)
    (hdec : populateModelFromHandler lib.unmarshalRules r = .ok batch)
    (hex : ∃ a ∈ getAnswers repo s (batch.toList.map Rule.ID), a.2 = none) :
    (appendRules lib repo s r).panic = none ∧
      responses (appendRules lib repo s r).log =
        [Event.WriteError (some (Error.WithStack Error.ErrResourceConflict))] ∧
      appendCalls (appendRules lib repo s r).log = [] := by
  have hne : batch.toList ≠ [] := by
    intro h
    obtain ⟨a, ha, _⟩ := hex
    simp [h, getAnswers] at ha
  obtain ⟨first, rest, hb⟩ := List.exists_cons_of_ne_nil hne
  have hfail : ¬ (checkLoop repo s batch.toList).2.2 = true := by
    intro hpass
    obtain ⟨a, ha, hnone⟩ := hex
    have := (checkLoop_passed_iff repo s batch.toList).1 hpass a ha
    simp [hnone, causeIs] at this
  obtain ⟨asked, hasked⟩ := checkLoop_gets_only repo s batch.toList
  rw [appendRules_decoded lib repo s r batch first rest hdec hb, if_neg hfail, hasked]
  refine ⟨rfl, ?_, ?_⟩
  · have h := responses_map_getEvent asked
    simp only [responses] at h ⊢
    simp [h, Event.isResponse]
  · have h := appendCalls_map_getEvent asked
    simp only [appendCalls] at h ⊢
    simp [h, List.filterMap_append]

/-- Witness of C1: the in-memory repository holds `r2`; the batch `r1, r2, r3`
has the existing ID in the middle. -/
theorem appendRules_existing_id_conflict_witness :
    populateModelFromHandler exampleLib.unmarshalRules (requestOf [1, 2, 3])
        = .ok (some [exampleRule 1, exampleRule 2, exampleRule 3]) ∧
      (∃ a ∈ getAnswers memoryRepository [exampleRule 2] ["r1", "r2", "r3"], a.2 = none) ∧
      (appendRules exampleLib memoryRepository [exampleRule 2] (requestOf [1, 2, 3])).panic
        = none ∧
      responses
          (appendRules exampleLib memoryRepository [exampleRule 2] (requestOf [1, 2, 3])).log =
        [Event.WriteError (some (Error.WithStack Error.ErrResourceConflict))] ∧
      appendCalls
          (appendRules exampleLib memoryRepository [exampleRule 2] (requestOf [1, 2, 3])).log
        = [] :=
  ⟨rfl, ⟨(some (exampleRule 2), none), by decide, rfl⟩,
    appendRules_existing_id_conflict exampleLib memoryRepository [exampleRule 2]
      (requestOf [1, 2, 3]) (some [exampleRule 1, exampleRule 2, exampleRule 3])
      rfl ⟨(some (exampleRule 2), none), by decide, rfl⟩⟩

/-- C2: when the body decodes to a non-empty batch and every `Get` pre-check
reports `ErrResourceNotFound`, `appendRules` does not panic, its repository calls
are the pre-checks in batch order followed by one `Append`, the only `Append`
receives the decoded batch itself (same elements, same order), and the response
is the confirmation when that call returns no error and `WriteError` of the
returned error otherwise. -/
theorem appendRules_new_ids_append_once {σ : Type} (lib : Lib) (repo : RuleRepository σ)
    (s : σ) (r : Request) (batch : Slice Rule)
    (hdec : populateModelFromHandler lib.unmarshalRules r = .ok batch)
    (hne : batch.toList ≠ [])
    (hnf : ∀ a ∈ getAnswers repo s (batch.toList.map Rule.ID),
      causeIs a.2 .ErrResourceNotFound = true) :
    (appendRules lib repo s r).panic = none ∧
      repoCalls (appendRules lib repo s r).log =
        batch.toList.map getEvent ++ [Event.RepoAppend batch] ∧
      appendCalls (appendRules lib repo s r).log = [batch] ∧
      ((repo.Append (storeAfterGets repo s (batch.toList.map Rule.ID)) batch).1 = none →
        responses (appendRules lib repo s r).log =
          [Event.Write (Payload.text "append rules ok")]) ∧
      (∀ err, (repo.Append (storeAfterGets repo s (batch.toList.map Rule.ID)) batch).1
          = some err →
        responses (appendRules lib repo s r).log = [Event.WriteError (some err)]) :=
  appendRules_all_new lib repo s r batch hdec hne hnf

/-- Witness of C2: the batch `r1, r2` on the in-memory repository holding `r3`. -/
theorem appendRules_new_ids_append_once_witness :
    populateModelFromHandler exampleLib.unmarshalRules (requestOf [1, 2])
        = .ok (some [exampleRule 1, exampleRule 2]) ∧
      (∀ a ∈ getAnswers memoryRepository [exampleRule 3] ["r1", "r2"],
        causeIs a.2 .ErrResourceNotFound = true) ∧
      repoCalls
          (appendRules exampleLib memoryRepository [exampleRule 3] (requestOf [1, 2])).log
        = [Event.RepoGet "r1", Event.RepoGet "r2",
            Event.RepoAppend (some [exampleRule 1, exampleRule 2])] ∧
      appendCalls
          (appendRules exampleLib memoryRepository [exampleRule 3] (requestOf [1, 2])).log
        = [some [exampleRule 1, exampleRule 2]] ∧
      responses
          (appendRules exampleLib memoryRepository [exampleRule 3] (requestOf [1, 2])).log
        = [Event.Write (Payload.text "append rules ok")] :=
  have h := appendRules_new_ids_append_once exampleLib memoryRepository [exampleRule 3]
    (requestOf [1, 2]) (some [exampleRule 1, exampleRule 2]) rfl (by decide)
    (by decide)
  ⟨rfl, by decide, h.2.1, h.2.2.1, h.2.2.2.1 (by decide)⟩

/-- C3: when `Get` on the path id reports `ErrResourceNotFound`, `deleteRules`
only calls `Get` and writes that error with status 404, never calling
`Repository.Delete`; `changeRules` does the same and never calls
`Repository.Change`, for every request, its body being read or decoded or not. -/
theorem delete_change_absent_id_not_found {σ : Type} (lib : Lib) (repo : RuleRepository σ)
    (s : σ) (r : Request) (ps : Params)
    (hnf : causeIs (repo.Get s (ps.ByName "id")).1.2 .ErrResourceNotFound = true) :
    (deleteRules repo s ps).log =
        [Event.RepoGet (ps.ByName "id"),
          Event.WriteErrorCode 404 (repo.Get s (ps.ByName "id")).1.2] ∧
      deleteCalls (deleteRules repo s ps).log = [] ∧
      (changeRules lib repo s r ps).log =
        [Event.RepoGet (ps.ByName "id"),
          Event.WriteErrorCode 404 (repo.Get s (ps.ByName "id")).1.2] ∧
      changeCalls (changeRules lib repo s r ps).log = [] := by
  simp [deleteRules, changeRules, hnf, StatusNotFound, deleteCalls, changeCalls]

/-- Witness of C3: id `r1` on the empty in-memory repository, with a body that
does not decode. -/
theorem delete_change_absent_id_not_found_witness :
    causeIs (memoryRepository.Get [] (Params.ByName [("id", "r1")] "id")).1.2
        .ErrResourceNotFound = true ∧
      (deleteRules memoryRepository [] [("id", "r1")]).log =
        [Event.RepoGet "r1",
          Event.WriteErrorCode 404 (some (Error.WithStack Error.ErrResourceNotFound))] ∧
      (changeRules exampleLib memoryRepository [] (requestOf []) [("id", "r1")]).log =
        [Event.RepoGet "r1",
          Event.WriteErrorCode 404 (some (Error.WithStack Error.ErrResourceNotFound))] :=
  have h := delete_change_absent_id_not_found exampleLib memoryRepository []
    (requestOf []) [("id", "r1")] (by decide)
  ⟨by decide, h.1, h.2.2.1⟩

/-- C4: when the body decodes to a rule whose ID differs from the path id,
`changeRules` never calls `Repository.Change` and never writes the confirmation;
its only response is an error: the 404 of the pre-check when `Get` reports
`ErrResourceNotFound`, the mismatch error otherwise. -/
theorem changeRules_id_mismatch_no_change {σ : Type} (lib : Lib) (repo : RuleRepository σ)
    (s : σ) (r : Request) (ps : Params) (rl : Rule)
    (hdec : populateModelFromHandler lib.unmarshalRule r = .ok rl)
    (hne : rl.ID ≠ ps.ByName "id") :
    changeCalls (changeRules lib repo s r ps).log = [] ∧
      Event.Write (Payload.text "change ok") ∉ (changeRules lib repo s r ps).log ∧
      (responses (changeRules lib repo s r ps).log =
          [Event.WriteErrorCode 404 (repo.Get s (ps.ByName "id")).1.2] ∨
        responses (changeRules lib repo s r ps).log =
          [Event.WriteError
            (some (Error.New "ID of changed rule must be same as new one"))]) := by
  have hne2 : ¬ ps.ByName "id" = rl.ID := fun h => hne h.symm
  by_cases hnf : causeIs (repo.Get s (ps.ByName "id")).1.2 .ErrResourceNotFound = true
  · simp [changeRules, hnf, StatusNotFound, changeCalls, responses, Event.isResponse]
  · simp [changeRules, hnf, hdec, hne2, changeCalls, responses, Event.isResponse]

/-- Witness of C4: path id `r1` held by the repository, body decoding to `r2`. -/
theorem changeRules_id_mismatch_no_change_witness :
    populateModelFromHandler exampleLib.unmarshalRule (requestOf [2])
        = .ok (exampleRule 2) ∧
      (exampleRule 2).ID ≠ Params.ByName [("id", "r1")] "id" ∧
      changeCalls
          (changeRules exampleLib memoryRepository [exampleRule 1] (requestOf [2])
            [("id", "r1")]).log = [] ∧
      Event.Write (Payload.text "change ok") ∉
        (changeRules exampleLib memoryRepository [exampleRule 1] (requestOf [2])
          [("id", "r1")]).log :=
  have h := changeRules_id_mismatch_no_change exampleLib memoryRepository [exampleRule 1]
    (requestOf [2]) [("id", "r1")] (exampleRule 2) rfl (by decide)
  ⟨rfl, by decide, h.1, h.2.1⟩

/-- C10: with `limit, offset` the parsed pagination and `rules, err` the results
of `Repository.List`: when `err` is nil the only response is `Write` of a
non-nil slice, the empty one if `rules` is nil and `rules` itself otherwise;
when `err` is not nil the only response is `WriteError` of `err`; in no case is
the nil slice written. -/
theorem listRules_sequence_never_nil {σ : Type} (lib : Lib) (repo : RuleRepository σ)
    (s s1 : σ) (r : Request) (limit offset : Int) (rules : Slice Rule) (err : Option Error)
    (hparse : lib.paginationParse r 50 0 500 = (limit, offset))
    (hlist : repo.List s limit offset = ((rules, err), s1)) :
    (err = none → rules = none →
        (listRules lib repo s r).log =
          [Event.RepoList limit offset, Event.Write (Payload.rules (some []))]) ∧
      (err = none → ∀ l, rules = some l →
        (listRules lib repo s r).log =
          [Event.RepoList limit offset, Event.Write (Payload.rules (some l))]) ∧
      (err ≠ none →
        (listRules lib repo s r).log =
          [Event.RepoList limit offset, Event.WriteError err]) ∧
      Event.Write (Payload.rules none) ∉ (listRules lib repo s r).log := by
  refine ⟨?_, ?_, ?_, ?_⟩
  · intro he hr
    simp [listRules, hparse, hlist, he, hr]
  · intro he l hr
    simp [listRules, hparse, hlist, he, hr]
  · intro he
    simp [listRules, hparse, hlist, he]
  · by_cases he : err = none
    · cases rules <;> simp [listRules, hparse, hlist, he]
    · simp [listRules, hparse, hlist, he]

/-- Witness of C10: the empty in-memory repository returns the nil slice and the
handler writes the empty one. -/
theorem listRules_sequence_never_nil_witness :
    exampleLib.paginationParse (requestOf []) 50 0 500 = (50, 0) ∧
      memoryRepository.List [] 50 0 = ((none, none), []) ∧
      (listRules exampleLib memoryRepository [] (requestOf [])).log =
        [Event.RepoList 50 0, Event.Write (Payload.rules (some []))] :=
  have h := listRules_sequence_never_nil exampleLib memoryRepository [] [] (requestOf [])
    50 0 none none rfl rfl
  ⟨rfl, rfl, h.1 rfl rfl⟩

/-- Every body that decodes to a slice of length zero (nil or empty) makes
`appendRules` panic at `rules_to_append[0]`, with nothing called or written. -/
theorem appendRules_no_rules_panics {σ : Type} (lib : Lib) (repo : RuleRepository σ)
    (s : σ) (r : Request) (batch : Slice Rule)
    (hdec : populateModelFromHandler lib.unmarshalRules r = .ok batch)
    (hnil : batch.toList = []) :
    (appendRules lib repo s r).panic ≠ none ∧ (appendRules lib repo s r).log = [] := by
  simp [appendRules, hdec, hnil]

/-- C5 (evaluation at the failing input): the body `[0]` decodes to the empty
slice; `appendRules` ends in the index-out-of-range panic with an empty log, so
`Repository.Append` is not invoked and nothing is written. -/
theorem appendRules_empty_batch_panics :
    populateModelFromHandler exampleLib.unmarshalRules (requestOf [0]) = .ok (some []) ∧
      (appendRules exampleLib memoryRepository [] (requestOf [0])).panic =
        some "runtime error: index out of range [0] with length 0" ∧
      (appendRules exampleLib memoryRepository [] (requestOf [0])).log = [] ∧
      appendCalls (appendRules exampleLib memoryRepository [] (requestOf [0])).log = [] :=
  ⟨rfl, by decide, by decide, by decide⟩

/-- C6 (counterexample): the batch `r1, r1` on the empty in-memory repository.
Both pre-checks report `ErrResourceNotFound`, yet the handler does not answer
with the conflict error and does invoke `Repository.Append`, with both entries. -/
theorem appendRules_duplicate_ids_counterexample :
    populateModelFromHandler exampleLib.unmarshalRules (requestOf [1, 1])
        = .ok (some [exampleRule 1, exampleRule 1]) ∧
      (∀ a ∈ getAnswers memoryRepository [] ["r1", "r1"],
        causeIs a.2 .ErrResourceNotFound = true) ∧
      ¬ (responses (appendRules exampleLib memoryRepository [] (requestOf [1, 1])).log =
            [Event.WriteError (some (Error.WithStack Error.ErrResourceConflict))] ∧
          appendCalls (appendRules exampleLib memoryRepository [] (requestOf [1, 1])).log
            = []) ∧
      (appendRules exampleLib memoryRepository [] (requestOf [1, 1])).log =
        [Event.Println "version:v1", Event.RepoGet "r1", Event.RepoGet "r1",
          Event.RepoAppend (some [exampleRule 1, exampleRule 1]),
          Event.Write (Payload.text "append rules ok")] :=
  ⟨rfl, by decide, by decide, by decide⟩

/-- C6 (amended): when the decoded batch holds two entries `a` and `b` with the
same ID and every `Get` pre-check reports `ErrResourceNotFound`, `appendRules`
invokes `Repository.Append` exactly once, with a slice holding the whole batch,
`a` and `b` included, and the response is the confirmation when that call returns no error
and `WriteError` of the returned error otherwise. -/
theorem appendRules_duplicate_ids_appended {σ : Type} (lib : Lib) (repo : RuleRepository σ)
    (s : σ) (r : Request) (batch : Slice Rule) (pre mid post : List Rule) (a b : Rule)
    (hdec : populateModelFromHandler lib.unmarshalRules r = .ok batch)
    (hdup : batch.toList = pre ++ a :: (mid ++ b :: post))
    (_hid : a.ID = b.ID)
    (hnf : ∀ x ∈ getAnswers repo s (batch.toList.map Rule.ID),
      causeIs x.2 .ErrResourceNotFound = true) :
    (∃ arg : Slice Rule, appendCalls (appendRules lib repo s r).log = [arg] ∧
        arg.toList = pre ++ a :: (mid ++ b :: post)) ∧
      ((repo.Append (storeAfterGets repo s (batch.toList.map Rule.ID)) batch).1 = none →
        responses (appendRules lib repo s r).log =
          [Event.Write (Payload.text "append rules ok")]) ∧
      (∀ err, (repo.Append (storeAfterGets repo s (batch.toList.map Rule.ID)) batch).1
          = some err →
        responses (appendRules lib repo s r).log = [Event.WriteError (some err)]) := by
  have hne : batch.toList ≠ [] := by simp [hdup]
  have h := appendRules_all_new lib repo s r batch hdec hne hnf
  exact ⟨⟨batch, h.2.2.1, hdup⟩, h.2.2.2.1, h.2.2.2.2⟩

/-- Witness of C6 (amended): the batch `r1, r1` on the empty in-memory
repository. -/
theorem appendRules_duplicate_ids_appended_witness :
    populateModelFromHandler exampleLib.unmarshalRules (requestOf [1, 1])
        = .ok (some [exampleRule 1, exampleRule 1]) ∧
      (exampleRule 1).ID = (exampleRule 1).ID ∧
      (∀ x ∈ getAnswers memoryRepository [] ["r1", "r1"],
        causeIs x.2 .ErrResourceNotFound = true) ∧
      (∃ arg : Slice Rule,
        appendCalls (appendRules exampleLib memoryRepository [] (requestOf [1, 1])).log
          = [arg] ∧ arg.toList = [] ++ exampleRule 1 :: ([] ++ exampleRule 1 :: [])) ∧
      responses (appendRules exampleLib memoryRepository [] (requestOf [1, 1])).log
        = [Event.Write (Payload.text "append rules ok")] :=
  have h := appendRules_duplicate_ids_appended exampleLib memoryRepository []
    (requestOf [1, 1]) (some [exampleRule 1, exampleRule 1]) [] [] [] (exampleRule 1)
    (exampleRule 1) rfl rfl rfl (by decide)
  ⟨rfl, rfl, by decide, h.1, h.2.1 (by decide)⟩

/-- C7 (counterexample): path id `r1` held by the repository, body decoding to
`r2`. The mismatch error goes through `WriteError`; no `WriteErrorCode` with
status 400 occurs in the log. -/
theorem changeRules_id_mismatch_counterexample :
    (memoryRepository.Get [exampleRule 1] (Params.ByName [("id", "r1")] "id")).1.2 = none ∧
      populateModelFromHandler exampleLib.unmarshalRule (requestOf [2])
        = .ok (exampleRule 2) ∧
      (exampleRule 2).ID ≠ Params.ByName [("id", "r1")] "id" ∧
      (changeRules exampleLib memoryRepository [exampleRule 1] (requestOf [2])
          [("id", "r1")]).log =
        [Event.RepoGet "r1",
          Event.WriteError
            (some (Error.New "ID of changed rule must be same as new one"))] ∧
      ¬ ∃ err, Event.WriteErrorCode 400 err ∈
        (changeRules exampleLib memoryRepository [exampleRule 1] (requestOf [2])
          [("id", "r1")]).log := by
  refine ⟨by decide, rfl, by decide, by decide, ?_⟩
  rintro ⟨err, h⟩
  have hlog : (changeRules exampleLib memoryRepository [exampleRule 1] (requestOf [2])
      [("id", "r1")]).log =
        [Event.RepoGet "r1",
          Event.WriteError
            (some (Error.New "ID of changed rule must be same as new one"))] := by
    decide
  rw [hlog] at h
  simp at h

/-- C7 (amended): validation errors go through the writer's generic error path
`WriteError`, with no status code given by the handler. In `changeRules`, when
`Get` on the path id succeeds and the decoded body ID differs from it, the only
response is `WriteError` of the mismatch error; in `appendRules` a body that
fails to decode has its decoding error as the only response, through
`WriteError`; so has one in `changeRules` once `Get` did not report
`ErrResourceNotFound`. -/
theorem validation_errors_use_generic_path {σ : Type} (lib : Lib)
    (repo : RuleRepository σ) (s : σ) (r : Request) (ps : Params) :
    (∀ rl, (repo.Get s (ps.ByName "id")).1.2 = none →
        populateModelFromHandler lib.unmarshalRule r = .ok rl →
        rl.ID ≠ ps.ByName "id" →
        responses (changeRules lib repo s r ps).log =
          [Event.WriteError
            (some (Error.New "ID of changed rule must be same as new one"))]) ∧
      (∀ err, populateModelFromHandler lib.unmarshalRules r = .error err →
        responses (appendRules lib repo s r).log = [Event.WriteError (some err)]) ∧
      (∀ err, causeIs (repo.Get s (ps.ByName "id")).1.2 .ErrResourceNotFound = false →
        populateModelFromHandler lib.unmarshalRule r = .error err →
        responses (changeRules lib repo s r ps).log = [Event.WriteError (some err)]) := by
  refine ⟨?_, ?_, ?_⟩
  · intro rl hget hdec hne
    have hne2 : ¬ ps.ByName "id" = rl.ID := fun h => hne h.symm
    simp [changeRules, hget, causeIs, hdec, hne2, responses, Event.isResponse]
  · intro err hdec
    simp [appendRules, hdec, responses, Event.isResponse]
  · intro err hget hdec
    simp [changeRules, hget, hdec, responses, Event.isResponse]

/-- Witness of C7 (amended): the three cases on the in-memory repository
holding `r1`. -/
theorem validation_errors_use_generic_path_witness :
    responses
        (changeRules exampleLib memoryRepository [exampleRule 1] (requestOf [2])
          [("id", "r1")]).log =
        [Event.WriteError
          (some (Error.New "ID of changed rule must be same as new one"))] ∧
      responses (appendRules exampleLib memoryRepository [exampleRule 1] (requestOf [])).log =
        [Event.WriteError (some (Error.New "unexpected end of JSON input"))] ∧
      responses
        (changeRules exampleLib memoryRepository [exampleRule 1] (requestOf [])
          [("id", "r1")]).log =
        [Event.WriteError (some (Error.New "unexpected end of JSON input"))] :=
  ⟨(validation_errors_use_generic_path exampleLib memoryRepository [exampleRule 1]
      (requestOf [2]) [("id", "r1")]).1 (exampleRule 2) (by decide) rfl (by decide),
    (validation_errors_use_generic_path exampleLib memoryRepository [exampleRule 1]
      (requestOf []) [("id", "r1")]).2.1 _ rfl,
    (validation_errors_use_generic_path exampleLib memoryRepository [exampleRule 1]
      (requestOf []) [("id", "r1")]).2.2 _ (by decide) rfl⟩

/-- C8 (counterexample): path id `r1` held by the repository, body that does not
decode. The request ends in the decoding error, and `Repository.Get` was
invoked. -/
theorem changeRules_validation_counterexample :
    populateModelFromHandler exampleLib.unmarshalRule (requestOf [])
        = .error (Error.New "unexpected end of JSON input") ∧
      responses
        (changeRules exampleLib memoryRepository [exampleRule 1] (requestOf [])
          [("id", "r1")]).log =
        [Event.WriteError (some (Error.New "unexpected end of JSON input"))] ∧
      repoCalls
        (changeRules exampleLib memoryRepository [exampleRule 1] (requestOf [])
          [("id", "r1")]).log = [Event.RepoGet "r1"] ∧
      ¬ repoCalls
        (changeRules exampleLib memoryRepository [exampleRule 1] (requestOf [])
          [("id", "r1")]).log = [] :=
  ⟨rfl, by decide, by decide, by decide⟩

/-- C8 (amended): an `appendRules` request whose body fails to decode invokes no
repository operation; a `changeRules` request that ends in a validation error
(after `Get` did not report `ErrResourceNotFound`, the body fails to decode or
its decoded ID differs from the path id) invokes exactly one repository
operation, the `Get` pre-check on the path id, and none of `List`, `Append`,
`Delete`, `Change`. -/
theorem validation_errors_repository_calls {σ : Type} (lib : Lib)
    (repo : RuleRepository σ) (s : σ) (r : Request) (ps : Params) :
    (∀ err, populateModelFromHandler lib.unmarshalRules r = .error err →
        repoCalls (appendRules lib repo s r).log = []) ∧
      (causeIs (repo.Get s (ps.ByName "id")).1.2 .ErrResourceNotFound = false →
        ((∃ err, populateModelFromHandler lib.unmarshalRule r = .error err) ∨
          ∃ rl, populateModelFromHandler lib.unmarshalRule r = .ok rl ∧
            rl.ID ≠ ps.ByName "id") →
        repoCalls (changeRules lib repo s r ps).log = [Event.RepoGet (ps.ByName "id")]) := by
  refine ⟨?_, ?_⟩
  · intro err hdec
    simp [appendRules, hdec, repoCalls, Event.isRepoCall]
  · intro hget hval
    rcases hval with ⟨err, hdec⟩ | ⟨rl, hdec, hne⟩
    · simp [changeRules, hget, hdec, repoCalls, Event.isRepoCall]
    · have hne2 : ¬ ps.ByName "id" = rl.ID := fun h => hne h.symm
      simp [changeRules, hget, hdec, hne2, repoCalls, Event.isRepoCall]

/-- Witness of C8 (amended): a body that does not decode, sent to `appendRules`
and to `changeRules` for the held id `r1`. -/
theorem validation_errors_repository_calls_witness :
    repoCalls (appendRules exampleLib memoryRepository [exampleRule 1] (requestOf [])).log
        = [] ∧
      repoCalls
        (changeRules exampleLib memoryRepository [exampleRule 1] (requestOf [])
          [("id", "r1")]).log = [Event.RepoGet "r1"] :=
  ⟨(validation_errors_repository_calls exampleLib memoryRepository [exampleRule 1]
      (requestOf []) [("id", "r1")]).1 _ rfl,
    (validation_errors_repository_calls exampleLib memoryRepository [exampleRule 1]
      (requestOf []) [("id", "r1")]).2 (by decide) (Or.inl ⟨_, rfl⟩)⟩

/-- A failure of the last repository call of a handler is forwarded with no
further repository call: `List` and the `Get` of `getRules` through
`WriteError`, `Delete` and `Change` through `WriteErrorCode` with status 500. -/
theorem last_call_failure_forwarded {σ : Type} (lib : Lib) (repo : RuleRepository σ)
    (s : σ) (r : Request) (ps : Params) (e : Error) :
    ((repo.List s (lib.paginationParse r 50 0 500).1 (lib.paginationParse r 50 0 500).2).1.2
          = some e →
        responses (listRules lib repo s r).log = [Event.WriteError (some e)] ∧
          (repoCalls (listRules lib repo s r).log).length = 1) ∧
      ((repo.Get s (ps.ByName "id")).1.2 = some e → Cause e ≠ .ErrResourceNotFound →
        (getRules repo s ps).log =
          [Event.RepoGet (ps.ByName "id"), Event.WriteError (some e)]) ∧
      (causeIs (repo.Get s (ps.ByName "id")).1.2 .ErrResourceNotFound = false →
        (repo.Delete (repo.Get s (ps.ByName "id")).2 (ps.ByName "id")).1 = some e →
        (deleteRules repo s ps).log =
          [Event.RepoGet (ps.ByName "id"), Event.RepoDelete (ps.ByName "id"),
            Event.WriteErrorCode 500 (some e)]) ∧
      (∀ rl, causeIs (repo.Get s (ps.ByName "id")).1.2 .ErrResourceNotFound = false →
        populateModelFromHandler lib.unmarshalRule r = .ok rl → rl.ID = ps.ByName "id" →
        (repo.Change (repo.Get s (ps.ByName "id")).2 (ps.ByName "id") rl).1 = some e →
        (changeRules lib repo s r ps).log =
          [Event.RepoGet (ps.ByName "id"), Event.RepoChange (ps.ByName "id") rl,
            Event.WriteErrorCode 500 (some e)]) := by
  refine ⟨?_, ?_, ?_, ?_⟩
  · intro h
    simp [listRules, h, responses, repoCalls, Event.isResponse, Event.isRepoCall]
  · intro h hc
    simp [getRules, h, causeIs, hc]
  · intro hget hdel
    simp [deleteRules, hget, hdel, StatusInternalServerError]
  · intro rl hget hdec hid hch
    simp [changeRules, hget, hdec, hid, hch, StatusInternalServerError]

/-- A `Get` pre-check that fails with an error whose cause is not
`ErrResourceNotFound` is not forwarded: `deleteRules` goes on to call `Delete`,
`changeRules` goes on to decode the body and, when its ID is the path id, to
call `Change`, and `appendRules` answers a failing first pre-check with the
conflict error. -/
theorem precheck_failure_falls_through {σ : Type} (lib : Lib) (repo : RuleRepository σ)
    (s : σ) (r : Request) (ps : Params) (e : Error) (hc : Cause e ≠ .ErrResourceNotFound) :
    ((repo.Get s (ps.ByName "id")).1.2 = some e →
        deleteCalls (deleteRules repo s ps).log = [ps.ByName "id"]) ∧
      (∀ rl, (repo.Get s (ps.ByName "id")).1.2 = some e →
        populateModelFromHandler lib.unmarshalRule r = .ok rl → rl.ID = ps.ByName "id" →
        changeCalls (changeRules lib repo s r ps).log = [(ps.ByName "id", rl)]) ∧
      (∀ batch first rest, populateModelFromHandler lib.unmarshalRules r = .ok batch →
        batch.toList = first :: rest → (repo.Get s first.ID).1.2 = some e →
        (appendRules lib repo s r).log =
          [Event.Println ("version:" ++ first.Version), Event.RepoGet first.ID,
            Event.WriteError (some (Error.WithStack Error.ErrResourceConflict))]) := by
  refine ⟨?_, ?_, ?_⟩
  · intro hget
    by_cases hd : (repo.Delete (repo.Get s (ps.ByName "id")).2 (ps.ByName "id")).1 = none
    · simp [deleteRules, hget, causeIs, hc, hd, deleteCalls]
    · simp [deleteRules, hget, causeIs, hc, hd, deleteCalls]
  · intro rl hget hdec hid
    by_cases hd : (repo.Change (repo.Get s (ps.ByName "id")).2 (ps.ByName "id") rl).1 = none
    · simp [changeRules, hget, causeIs, hc, hdec, hid, hd, changeCalls]
    · simp [changeRules, hget, causeIs, hc, hdec, hid, hd, changeCalls]
  · intro batch first rest hdec hb hget
    rw [appendRules_decoded lib repo s r batch first rest hdec hb, hb, checkLoop_cons]
    simp [hget, causeIs, hc, getEvent]

/-- C9 (evaluation at the failing input): on a repository whose `Get` fails with
`connection refused`, an error whose cause is not `ErrResourceNotFound`,
`appendRules` answers with the conflict error, `deleteRules` goes on to call
`Delete` and confirms, `changeRules` goes on to call `Change` and confirms, while
`getRules` on the same repository writes the error of `Get` through `WriteError`. -/
theorem get_failure_not_propagated :
    (brokenGetRepository.Get () "r1").1.2 = some (Error.New "connection refused") ∧
      causeIs (brokenGetRepository.Get () "r1").1.2 .ErrResourceNotFound = false ∧
      (appendRules exampleLib brokenGetRepository () (requestOf [1])).log =
        [Event.Println "version:v1", Event.RepoGet "r1",
          Event.WriteError (some (Error.WithStack Error.ErrResourceConflict))] ∧
      (deleteRules brokenGetRepository () [("id", "r1")]).log =
        [Event.RepoGet "r1", Event.RepoDelete "r1",
          Event.Write (Payload.text "delete ok")] ∧
      (changeRules exampleLib brokenGetRepository () (requestOf [1]) [("id", "r1")]).log =
        [Event.RepoGet "r1", Event.RepoChange "r1" (exampleRule 1),
          Event.Write (Payload.text "change ok")] ∧
      (getRules brokenGetRepository () [("id", "r1")]).log =
        [Event.RepoGet "r1", Event.WriteError (some (Error.New "connection refused"))] :=
  ⟨by decide, by decide, by decide, by decide, by decide, by decide⟩

end Api
